import Mathlib

/-!
Verification of the self-consistent AGF2 solver of Vayesta
(src/vayesta/eagf2/ragf2.py and src/vayesta/eagf2/eagf2.py).

The embedding is shallow: the control flow of the outer driver
(`RAGF2.kernel`, `EAGF2.kernel`), of the Fock/chemical-potential loop
(`RAGF2.fock_loop`) and of the pole bookkeeping is translated into total
Lean functions.  The heavy numerical kernels (eigendecompositions, moment
contractions, the Fock build, the chemical-potential searches) are values
of the surrounding code's state that the loops merely thread through, so
they are abstracted as oracle functions on an abstract state type; the
convergence measures the loops branch on (`derr`, `nerr`, the three
convergence deltas) are read off that state by oracle functions into `ℚ`.
Floating-point numbers are modelled by rationals: only order comparisons
and equality with zero drive the control flow studied here.
-/

namespace VayestaAGF2

/-- The subset of `RAGF2Options` (ragf2.py lines 30-76) that the claims
depend on, with the source's default values.  `conv_tol_t0` and
`conv_tol_t1` default to `np.inf` in the source; they are modelled as
`Option ℚ` with `none` standing for infinity. -/
structure RAGF2Opts where
  weight_tol : ℚ := 1 / 1000000000000
  max_cycle : ℕ := 50
  conv_tol : ℚ := 1 / 10000000
  conv_tol_t0 : Option ℚ := none
  conv_tol_t1 : Option ℚ := none
  extra_cycle : Bool := true
  fock_loop : Bool := true
  max_cycle_outer : ℕ := 20
  max_cycle_inner : ℕ := 50
  conv_tol_rdm1 : ℚ := 1 / 100000000
  conv_tol_nelec : ℚ := 1 / 1000000
  fock_damping : ℚ := 0
  os_factor : ℚ := 1
  ss_factor : ℚ := 1
  nmom_projection : Option ℕ := none
deriving DecidableEq

/-- Python truthiness fallback `x or y` for a float argument that may also
be `None`: `None` and `0.0` are falsy, so both select the fallback `y`. -/
def pyFloatOr (x : Option ℚ) (y : ℚ) : ℚ :=
  match x with
  | none => y
  | some v => if v = 0 then y else v

/-- The factor resolution at the head of `RAGF2._build_moments`
(ragf2.py lines 358-359):
`os_factor = os_factor or self.opts.os_factor` and
`ss_factor = ss_factor or self.opts.ss_factor`.
The rest of the moment contraction is numerical and not needed here. -/
def buildMomentsFactors (osArg ssArg : Option ℚ) (opts : RAGF2Opts) : ℚ × ℚ :=
  (pyFloatOr osArg opts.os_factor, pyFloatOr ssArg opts.ss_factor)

/-- Exceptions distinguished by `DIIS.update` (ragf2.py lines 89-93): the
`except` clause catches `np.linalg.linalg.LinAlgError` only; any other
exception propagates. -/
inductive PyErr where
  | linAlgError : PyErr
  | otherErr : PyErr
deriving DecidableEq

/-- `DIIS.update` (ragf2.py lines 89-93): call the underlying
`pyscf.lib.diis.DIIS.update` (abstracted as `baseUpdate`, which may raise);
on `LinAlgError` return the input vector unchanged. -/
def diisUpdate {α : Type} (baseUpdate : α → Except PyErr α) (x : α) : Except PyErr α :=
  match baseUpdate x with
  | Except.ok y => Except.ok y
  | Except.error PyErr.linAlgError => Except.ok x
  | Except.error PyErr.otherErr => Except.error PyErr.otherErr

/-- One auxiliary pole of a self-energy: a real energy and a coupling
vector over the physical (active) space. -/
structure Pole where
  energy : ℚ
  coupling : List ℚ
deriving DecidableEq

/-- A `SelfEnergyPoles` value: a list of auxiliary poles and a chemical
potential (pyscf `agf2.SelfEnergy`, used throughout ragf2.py). -/
structure SEPoles where
  poles : List Pole
  chempot : ℚ
deriving DecidableEq

/-- Squared norm of a pole's coupling vector. -/
def poleWeight (p : Pole) : ℚ :=
  (p.coupling.map (fun x => x * x)).sum

/-- Modelled from the spec: `remove_uncoupled` of pyscf's auxiliary-space
class is not part of this repository; spec 4.2 states both pole-extraction
paths finish by "discarding poles whose coupling-vector squared norm is
below a configured tolerance".  A pole is kept when its squared coupling
norm is at least `tol`. -/
def removeUncoupled (tol : ℚ) (se : SEPoles) : SEPoles :=
  ⟨se.poles.filter (fun p => decide (tol ≤ poleWeight p)), se.chempot⟩

/-- Modelled from the spec: `pyscf.agf2.aux.combine` is not part of this
repository; spec 4.3 describes it as "simple pole-set concatenation with
chemical potential inherited from the caller" (the first, occupied-sector
argument). -/
def combinePoles (seOcc seVir : SEPoles) : SEPoles :=
  ⟨seOcc.poles ++ seVir.poles, seOcc.chempot⟩

/-- Modelled from the spec: `get_occupied` of pyscf's auxiliary-space class
is not part of this repository; the glossary defines the chemical potential
as "a scalar threshold separating occupied (hole) from unoccupied
(particle) spectral weight", so the occupied sector keeps the poles with
energy strictly below the chemical potential. -/
def getOccupied (se : SEPoles) : SEPoles :=
  ⟨se.poles.filter (fun p => decide (p.energy < se.chempot)), se.chempot⟩

/-- Modelled from the spec: `get_virtual` of pyscf's auxiliary-space class
is not part of this repository; the virtual sector keeps the poles with
energy at or above the chemical potential. -/
def getVirtual (se : SEPoles) : SEPoles :=
  ⟨se.poles.filter (fun p => decide (se.chempot ≤ p.energy)), se.chempot⟩

/-- Tail of `RAGF2._build_se_from_moments` (ragf2.py lines 405-429): both
the order-0 eigendecomposition path and the block-Lanczos path produce a
list of poles (energies `e` and couplings `v`, external numerics modelled
by the universally quantified `eigenPoles`); the function then wraps them
with the chemical potential and prunes the uncoupled poles at the
configured weight tolerance. -/
def buildSeFromMoments (eigenPoles : List Pole) (chempot tol : ℚ) : SEPoles :=
  removeUncoupled tol ⟨eigenPoles, chempot⟩

/-- `RAGF2._combine_se` (ragf2.py lines 432-445): concatenate the occupied
and virtual self-energies, optionally compress through the moment
projection (external numerics abstracted as the `compress` oracle, enabled
when `nmom_projection` is set), then prune the uncoupled poles at the
configured weight tolerance. -/
def combineSe (compress : SEPoles → SEPoles) (useProj : Bool) (tol : ℚ)
    (seOcc seVir : SEPoles) : SEPoles :=
  let se := combinePoles seOcc seVir
  let se := if useProj then compress se else se
  removeUncoupled tol se

/-- The augmented matrix `f_ext` built by `RAGF2.solve_dyson` (ragf2.py
line 645): `np.block([[fock, v], [v.T.conj(), np.diag(e)]])`, with block
concatenation rendered by `Matrix.fromBlocks`; conjugation is the identity
over the rationals. -/
def dysonMatrix {n k : ℕ} (fock : Matrix (Fin n) (Fin n) ℚ) (e : Fin k → ℚ)
    (v : Matrix (Fin n) (Fin k) ℚ) : Matrix (Fin n ⊕ Fin k) (Fin n ⊕ Fin k) ℚ :=
  Matrix.fromBlocks fock v v.transpose (Matrix.diagonal e)

/-- Modelled from the spec: the augmented block matrix
`[[Fock, coupling], [coupling^T, diag(energies)]]` of spec 4.3, written
entrywise, to compare with the matrix the source builds. -/
def dysonMatrixSpec {n k : ℕ} (fock : Matrix (Fin n) (Fin n) ℚ) (e : Fin k → ℚ)
    (v : Matrix (Fin n) (Fin k) ℚ) : Matrix (Fin n ⊕ Fin k) (Fin n ⊕ Fin k) ℚ :=
  fun i j =>
    match i, j with
    | Sum.inl a, Sum.inl b => fock a b
    | Sum.inl a, Sum.inr b => v a b
    | Sum.inr a, Sum.inl b => v b a
    | Sum.inr a, Sum.inr b => if a = b then e a else 0

/-- `RAGF2.solve_dyson` (ragf2.py lines 632-660): build `f_ext` and return
its eigendecomposition `w, v = np.linalg.eigh(f_ext)`; the numerical
eigensolver is abstracted as the oracle `eigh`. -/
def solveDyson {n k : ℕ}
    (eigh : Matrix (Fin n ⊕ Fin k) (Fin n ⊕ Fin k) ℚ →
      (Fin n ⊕ Fin k → ℚ) × Matrix (Fin n ⊕ Fin k) (Fin n ⊕ Fin k) ℚ)
    (fock : Matrix (Fin n) (Fin n) ℚ) (e : Fin k → ℚ)
    (v : Matrix (Fin n) (Fin k) ℚ) :
    (Fin n ⊕ Fin k → ℚ) × Matrix (Fin n ⊕ Fin k) (Fin n ⊕ Fin k) ℚ :=
  eigh (dysonMatrix fock e v)

/-- A `GreensFunctionPoles` value in the matrix representation used by
`solve_dyson` and the Fock loop: pole energies indexed by `ι`, couplings
over the `n` physical rows, and a chemical potential. -/
structure GFPoles (n : ℕ) (ι : Type) where
  energy : ι → ℚ
  coupling : Fin n → ι → ℚ
  chempot : ℚ

/-- The Green's function formed in `RAGF2.fock_loop` from a Dyson solve
(ragf2.py lines 705-707): `w, v = self.solve_dyson(...)` then
`gf = agf2.GreensFunction(w, v[:self.nact], chempot=...)` — the
eigenvalues become the pole energies and only the first `nact`
(physical) rows of the eigenvectors become the couplings. -/
def fockLoopGf {n k : ℕ}
    (eigh : Matrix (Fin n ⊕ Fin k) (Fin n ⊕ Fin k) ℚ →
      (Fin n ⊕ Fin k → ℚ) × Matrix (Fin n ⊕ Fin k) (Fin n ⊕ Fin k) ℚ)
    (fock : Matrix (Fin n) (Fin n) ℚ) (e : Fin k → ℚ)
    (v : Matrix (Fin n) (Fin k) ℚ) (chempot : ℚ) : GFPoles n (Fin n ⊕ Fin k) :=
  let wv := solveDyson eigh fock e v
  ⟨wv.1, fun i j => wv.2 (Sum.inl i) j, chempot⟩

/-- Events emitted by `RAGF2.fock_loop`, one per numerically significant
operation of the source, used to state which operations a path performs. -/
inductive FEv where
  | minChem : FEv
  | dyson : FEv
  | binsearch : FEv
  | fockBuild : FEv
  | damp : FEv
  | diis : FEv
deriving DecidableEq

/-- Oracle for the numerical content of `RAGF2.fock_loop` over an abstract
state `α` holding the self-energy, Green's function, Fock matrix, previous
density matrix and DIIS history.  Each field transforms the state as the
corresponding source operation does; `derrF` and `nerrF` read off the
density-matrix change `derr` and electron-number error `nerr` of a
state. -/
structure FockOracle (α : Type) where
  minChem : α → α
  solveDysonF : α → α
  binsearchF : α → α
  fockRebuild : α → α
  dampF : α → α
  diisF : α → α
  derrF : α → ℚ
  nerrF : α → ℚ

/-- One iteration of the inner Fock loop (ragf2.py lines 704-725): solve
the Dyson equation, bisect the chemical potential, rebuild the Fock
matrix, optionally damp it toward the previous one, then apply DIIS. -/
def innerStep {α : Type} (O : FockOracle α) (damping : Bool) (s : α) : α :=
  let s := O.fockRebuild (O.binsearchF (O.solveDysonF s))
  O.diisF (if damping then O.dampF s else s)

/-- The events one inner Fock-loop iteration emits, in source order. -/
def innerEvents (damping : Bool) : List FEv :=
  [FEv.dyson, FEv.binsearch, FEv.fockBuild] ++
    (if damping then [FEv.damp] else []) ++ [FEv.diis]

/-- The inner Fock loop `for niter2 in range(1, max_cycle_inner+1)`
(ragf2.py lines 704-725): run inner iterations until the density-matrix
change drops below `conv_tol_rdm1` or the budget is exhausted, returning
the final state and the emitted events. -/
def innerRun {α : Type} (O : FockOracle α) (damping : Bool) (tolR : ℚ) :
    α → ℕ → α × List FEv
  | s, 0 => (s, [])
  | s, Nat.succ rem =>
      let t := innerStep O damping s
      if |O.derrF t| < tolR then (t, innerEvents damping)
      else
        let r := innerRun O damping tolR t rem
        (r.1, innerEvents damping ++ r.2)

/-- One full outer Fock-loop cycle (ragf2.py lines 696-725): the staged
chemical-potential minimization followed by the inner loop. -/
def fockCycle {α : Type} (O : FockOracle α) (damping : Bool) (tolR : ℚ)
    (maxInner : ℕ) (s : α) : α :=
  (innerRun O damping tolR (O.minChem s) maxInner).1

/-- The outer Fock loop `for niter1 in range(1, max_cycle_outer+1)`
(ragf2.py lines 696-731): each cycle runs `minimize_chempot` and the inner
loop, then stops converged when both the density-matrix change and the
electron-number error of the cycle's final state are within tolerance;
exhausting the budget returns the current state unconverged. -/
def outerRun {α : Type} (O : FockOracle α) (damping : Bool) (tolR tolN : ℚ)
    (maxInner : ℕ) : α → ℕ → α × List FEv × Bool
  | s, 0 => (s, [], false)
  | s, Nat.succ rem =>
      let r := innerRun O damping tolR (O.minChem s) maxInner
      if |O.derrF r.1| < tolR ∧ |O.nerrF r.1| < tolN then
        (r.1, FEv.minChem :: r.2, true)
      else
        let r2 := outerRun O damping tolR tolN maxInner r.1 rem
        (r2.1, (FEv.minChem :: r.2) ++ r2.2.1, r2.2.2)

/-- The convergence test of an outer Fock-loop cycle (ragf2.py line 729):
`abs(derr) < conv_tol_rdm1 and abs(nerr) < conv_tol_nelec`. -/
def outerPass {α : Type} (O : FockOracle α) (tolR tolN : ℚ) (s : α) : Prop :=
  |O.derrF s| < tolR ∧ |O.nerrF s| < tolN

/-- `RAGF2.fock_loop` (ragf2.py lines 663-743): build the entry Fock
matrix when none is given, then either the single Dyson solve followed by
one chemical-potential bisection with `converged = True` when the
`fock_loop` option is disabled (lines 675-684), or the full outer loop.
The result is the final state, the emitted events and the converged
flag. -/
def fockLoopRun {α : Type} (O : FockOracle α) (opts : RAGF2Opts)
    (fockGiven : Bool) (s : α) : α × List FEv × Bool :=
  let s0 := if fockGiven then s else O.fockRebuild s
  let evs0 : List FEv := if fockGiven then [] else [FEv.fockBuild]
  if opts.fock_loop then
    let r := outerRun O (decide (opts.fock_damping ≠ 0)) opts.conv_tol_rdm1
      opts.conv_tol_nelec opts.max_cycle_inner s0 opts.max_cycle_outer
    (r.1, evs0 ++ r.2.1, r.2.2)
  else
    (O.binsearchF (O.solveDysonF s0), evs0 ++ [FEv.dyson, FEv.binsearch], true)

/-- The convergence test of one outer driver iteration (ragf2.py lines
1263-1265 and eagf2.py lines 330-332): the three convergence deltas
(total-energy change, zeroth self-energy moment change, first self-energy
moment change) each below its tolerance, an infinite tolerance (`none`)
accepting everything; `d` returns the deltas of iteration `n`. -/
def kernelPass (d : ℕ → ℚ × ℚ × ℚ) (opts : RAGF2Opts) (n : ℕ) : Bool :=
  decide ((d n).1 < opts.conv_tol) &&
    (match opts.conv_tol_t0 with
     | none => true
     | some t => decide ((d n).2.1 < t)) &&
    (match opts.conv_tol_t1 with
     | none => true
     | some t => decide ((d n).2.2 < t))

/-- The outer iteration of `RAGF2.kernel` (ragf2.py lines 1228-1273):
`for niter in range(1, max_cycle+1)` with the extra-cycle confirmation
latch.  When the deltas pass and `extra_cycle` is set with the latch
clear, the latch is set and the loop continues; otherwise a pass declares
convergence and breaks.  A failing iteration clears the latch when
`extra_cycle` is set.  The result is the number of iterations executed and
the final converged flag. -/
def ragf2Loop (pass : ℕ → Bool) (extra : Bool) : ℕ → ℕ → Bool → ℕ × Bool
  | _, 0, _ => (0, false)
  | niter, Nat.succ rem, cprev =>
      if pass niter then
        if extra && !cprev then
          let r := ragf2Loop pass extra (niter + 1) rem true
          (r.1 + 1, r.2)
        else (1, true)
      else
        let r := ragf2Loop pass extra (niter + 1) rem
          (if extra && cprev then false else cprev)
        (r.1 + 1, r.2)

/-- The outer driver of `RAGF2.kernel`: iterations are numbered from 1 and
the loop body runs at most `max_cycle` times. -/
def ragf2Kernel (d : ℕ → ℚ × ℚ × ℚ) (opts : RAGF2Opts) : ℕ × Bool :=
  ragf2Loop (kernelPass d opts) opts.extra_cycle 1 opts.max_cycle false

/-- The outer iteration of `EAGF2.kernel` (eagf2.py lines 257-334):
`for niter in range(0, max_cycle+1)`; a single passing iteration sets
`converged = True` and breaks — the `extra_cycle` option is never
consulted by this kernel. -/
def eagf2Loop (pass : ℕ → Bool) : ℕ → ℕ → ℕ × Bool
  | _, 0 => (0, false)
  | niter, Nat.succ rem =>
      if pass niter then (1, true)
      else
        let r := eagf2Loop pass (niter + 1) rem
        (r.1 + 1, r.2)

/-- The outer driver of `EAGF2.kernel`: iterations are numbered from 0 and
the loop body runs at most `max_cycle + 1` times. -/
def eagf2Kernel (d : ℕ → ℚ × ℚ × ℚ) (opts : RAGF2Opts) : ℕ × Bool :=
  eagf2Loop (kernelPass d opts) 0 (opts.max_cycle + 1)

/-- A concrete Fock-loop oracle over `ℕ` used to instantiate the loop
theorems on an explicit input. -/
def natO : FockOracle ℕ where
  minChem := id
  solveDysonF := fun n => n + 1
  binsearchF := fun n => n + 1
  fockRebuild := fun n => n + 1
  dampF := id
  diisF := id
  derrF := fun n => (n : ℚ)
  nerrF := fun n => (n : ℚ)

/-- The source's default options with the inner self-consistency disabled
(`fock_loop=False`). -/
def optsNoFock : RAGF2Opts := { fock_loop := false }

/-- A concrete option configuration with unit tolerances (kernel-reducible
rationals) used to instantiate theorems on explicit inputs; all other
fields keep the source's defaults, in particular `extra_cycle = True`. -/
def optsW : RAGF2Opts :=
  { weight_tol := 1, conv_tol := 1, conv_tol_rdm1 := 1, conv_tol_nelec := 1 }

/-- Convergence-delta oracle that is below every tolerance on every
iteration. -/
def deltaZero : ℕ → ℚ × ℚ × ℚ := fun _ => (0, 0, 0)

/-- Convergence-delta oracle that passes the default tolerances on
iteration 0 only. -/
def deltaOnce : ℕ → ℚ × ℚ × ℚ := fun n => if n = 0 then (0, 0, 0) else (1, 1, 1)

/-- An occupied-sector self-energy with a single pole whose coupling is
entirely uncoupled (zero vector). -/
def seOccCx : SEPoles := ⟨[⟨-1, [0]⟩], 0⟩

/-- A virtual-sector self-energy with a single well-coupled pole. -/
def seVirCx : SEPoles := ⟨[⟨1, [1]⟩], 0⟩

/-- An occupied-sector self-energy with a single well-coupled pole. -/
def seOccW : SEPoles := ⟨[⟨-1, [1]⟩], 0⟩

/-- A virtual-sector self-energy with a single well-coupled pole, used
together with `seOccW`. -/
def seVirW : SEPoles := ⟨[⟨1, [1]⟩], 0⟩

theorem filter_twice {α : Type} (p : α → Bool) (l : List α) :
    (l.filter p).filter p = l.filter p := by
  induction l with
  | nil => rfl
  | cons a t ih =>
    by_cases h : p a = true
    · simp [List.filter_cons, h, ih]
    · simp [List.filter_cons, h, ih]

theorem filter_all_true {α : Type} (p : α → Bool) (l : List α)
    (h : ∀ x ∈ l, p x = true) : l.filter p = l := by
  induction l with
  | nil => rfl
  | cons a t ih =>
    have ha := h a (List.mem_cons_self a t)
    simp [List.filter_cons, ha, ih fun x hx => h x (List.mem_cons_of_mem a hx)]

theorem filter_all_false {α : Type} (p : α → Bool) (l : List α)
    (h : ∀ x ∈ l, p x = false) : l.filter p = [] := by
  induction l with
  | nil => rfl
  | cons a t ih =>
    have ha := h a (List.mem_cons_self a t)
    simp [List.filter_cons, ha, ih fun x hx => h x (List.mem_cons_of_mem a hx)]

theorem removeUncoupled_twice (tol : ℚ) (se : SEPoles) :
    removeUncoupled tol (removeUncoupled tol se) = removeUncoupled tol se := by
  simp [removeUncoupled, filter_twice]

/-- Claim C5: pruning of uncoupled poles is idempotent, and every
self-energy returned by `_build_se_from_moments` or `_combine_se` is
already pruned (a fixed point of `remove_uncoupled` at `weight_tol`). -/
theorem pruning_idempotent :
    ∀ (tol : ℚ) (se : SEPoles) (eigenPoles : List Pole) (c : ℚ)
      (compress : SEPoles → SEPoles) (useProj : Bool) (seO seV : SEPoles),
    removeUncoupled tol (removeUncoupled tol se) = removeUncoupled tol se ∧
    removeUncoupled tol (buildSeFromMoments eigenPoles c tol) =
      buildSeFromMoments eigenPoles c tol ∧
    removeUncoupled tol (combineSe compress useProj tol seO seV) =
      combineSe compress useProj tol seO seV := by
  intro tol se eigenPoles c compress useProj seO seV
  refine ⟨removeUncoupled_twice tol se, removeUncoupled_twice tol _, ?_⟩
  show removeUncoupled tol (removeUncoupled tol _) = removeUncoupled tol _
  exact removeUncoupled_twice tol _

/-- Claim C9: `DIIS.update` never produces a linear-algebra failure: when
the underlying extrapolation raises `LinAlgError` the input vector is
returned unchanged. -/
theorem diis_update_no_linalg_error {α : Type} (baseUpdate : α → Except PyErr α)
    (x : α) :
    diisUpdate baseUpdate x ≠ Except.error PyErr.linAlgError ∧
    (baseUpdate x = Except.error PyErr.linAlgError →
      diisUpdate baseUpdate x = Except.ok x) := by
  constructor
  · cases h : baseUpdate x with
    | ok y => simp [diisUpdate, h]
    | error e => cases e <;> simp [diisUpdate, h]
  · intro h
    simp [diisUpdate, h]

/-- Claim C10: an explicit zero spin-scaling factor passed to
`_build_moments` is discarded by the truthiness-based fallback, the
configured option value is used instead, and a per-call factor of exactly
zero can only ever be in effect when the option itself is zero. -/
theorem build_moments_zero_factor_fallback (opts : RAGF2Opts)
    (osArg ssArg : Option ℚ) :
    (buildMomentsFactors (some 0) ssArg opts).1 = opts.os_factor ∧
    (buildMomentsFactors osArg (some 0) opts).2 = opts.ss_factor ∧
    ((buildMomentsFactors osArg ssArg opts).1 = 0 → opts.os_factor = 0) ∧
    ((buildMomentsFactors osArg ssArg opts).2 = 0 → opts.ss_factor = 0) := by
  refine ⟨by simp [buildMomentsFactors, pyFloatOr], by simp [buildMomentsFactors, pyFloatOr], ?_, ?_⟩
  · intro h
    cases osArg with
    | none => simpa [buildMomentsFactors, pyFloatOr] using h
    | some v =>
      by_cases hv : v = 0
      · simpa [buildMomentsFactors, pyFloatOr, hv] using h
      · simp [buildMomentsFactors, pyFloatOr, hv] at h
  · intro h
    cases ssArg with
    | none => simpa [buildMomentsFactors, pyFloatOr] using h
    | some v =>
      by_cases hv : v = 0
      · simpa [buildMomentsFactors, pyFloatOr, hv] using h
      · simp [buildMomentsFactors, pyFloatOr, hv] at h

/-- Claim C4: `solve_dyson` returns exactly the eigendecomposition of the
augmented block matrix `[[fock, v], [v^T, diag(e)]]`, and the Green's
function formed in the Fock loop takes the eigenvalues as pole energies
and only the first `nact` (physical) rows of the eigenvectors as
couplings. -/
theorem solve_dyson_block_matrix {n k : ℕ}
    (eigh : Matrix (Fin n ⊕ Fin k) (Fin n ⊕ Fin k) ℚ →
      (Fin n ⊕ Fin k → ℚ) × Matrix (Fin n ⊕ Fin k) (Fin n ⊕ Fin k) ℚ)
    (fock : Matrix (Fin n) (Fin n) ℚ) (e : Fin k → ℚ)
    (v : Matrix (Fin n) (Fin k) ℚ) (c : ℚ) :
    dysonMatrix fock e v = dysonMatrixSpec fock e v ∧
    solveDyson eigh fock e v = eigh (dysonMatrixSpec fock e v) ∧
    (fockLoopGf eigh fock e v c).energy = (solveDyson eigh fock e v).1 ∧
    (∀ i j, (fockLoopGf eigh fock e v c).coupling i j =
      (solveDyson eigh fock e v).2 (Sum.inl i) j) ∧
    (fockLoopGf eigh fock e v c).chempot = c := by
  have hmat : dysonMatrix fock e v = dysonMatrixSpec fock e v := by
    funext i j
    cases i <;> cases j <;>
      simp [dysonMatrix, dysonMatrixSpec, Matrix.diagonal_apply, Matrix.transpose_apply]
  exact ⟨hmat, by rw [solveDyson, hmat], rfl, fun i j => rfl, rfl⟩

theorem ragf2Loop_le (pass : ℕ → Bool) (extra : Bool) :
    ∀ (rem niter : ℕ) (cprev : Bool), (ragf2Loop pass extra niter rem cprev).1 ≤ rem := by
  intro rem
  induction rem with
  | zero => intro niter cprev; simp [ragf2Loop]
  | succ m ih =>
    intro niter cprev
    simp only [ragf2Loop]
    by_cases h : pass niter = true
    · rw [if_pos h]
      by_cases h2 : (extra && !cprev) = true
      · rw [if_pos h2]
        exact Nat.succ_le_succ (ih _ _)
      · rw [if_neg h2]
        exact Nat.succ_le_succ (Nat.zero_le m)
    · rw [if_neg h]
      exact Nat.succ_le_succ (ih _ _)

theorem eagf2Loop_le (pass : ℕ → Bool) :
    ∀ (rem niter : ℕ), (eagf2Loop pass niter rem).1 ≤ rem := by
  intro rem
  induction rem with
  | zero => intro niter; simp [eagf2Loop]
  | succ m ih =>
    intro niter
    simp only [eagf2Loop]
    by_cases h : pass niter = true
    · rw [if_pos h]
      exact Nat.succ_le_succ (Nat.zero_le m)
    · rw [if_neg h]
      exact Nat.succ_le_succ (ih _)

/-- Claim C1: both outer self-consistency drivers terminate, converged or
not, after at most `max_cycle + 1` outer iterations (`RAGF2.kernel` runs
at most `max_cycle` body iterations, `EAGF2.kernel` at most
`max_cycle + 1`). -/
theorem outer_driver_terminates_within_bound (d : ℕ → ℚ × ℚ × ℚ)
    (opts : RAGF2Opts) :
    (ragf2Kernel d opts).1 ≤ opts.max_cycle + 1 ∧
    (eagf2Kernel d opts).1 ≤ opts.max_cycle + 1 ∧
    ((ragf2Kernel d opts).2 = true ∨ (ragf2Kernel d opts).2 = false) ∧
    ((eagf2Kernel d opts).2 = true ∨ (eagf2Kernel d opts).2 = false) := by
  refine ⟨Nat.le_trans (ragf2Loop_le _ _ _ _ _) (Nat.le_succ _),
    eagf2Loop_le _ _ _, ?_, ?_⟩
  · cases (ragf2Kernel d opts).2 <;> simp
  · cases (eagf2Kernel d opts).2 <;> simp

theorem ragf2Loop_consecutive (pass : ℕ → Bool) :
    ∀ (rem niter : ℕ) (cprev : Bool),
      (ragf2Loop pass true niter rem cprev).2 = true →
      (cprev = true ∧ pass niter = true) ∨
        ∃ k, niter ≤ k ∧ pass k = true ∧ pass (k + 1) = true := by
  intro rem
  induction rem with
  | zero => intro niter cprev h; simp [ragf2Loop] at h
  | succ m ih =>
    intro niter cprev h
    simp only [ragf2Loop] at h
    by_cases hp : pass niter = true
    · rw [if_pos hp] at h
      by_cases hc : (true && !cprev) = true
      · rw [if_pos hc] at h
        have h2 : (ragf2Loop pass true (niter + 1) m true).2 = true := h
        rcases ih (niter + 1) true h2 with ⟨_, hp2⟩ | ⟨k, hk, hk1, hk2⟩
        · exact Or.inr ⟨niter, Nat.le_refl _, hp, hp2⟩
        · exact Or.inr ⟨k, Nat.le_trans (Nat.le_succ _) hk, hk1, hk2⟩
      · have hcp : cprev = true := by
          cases cprev
          · simp at hc
          · rfl
        exact Or.inl ⟨hcp, hp⟩
    · rw [if_neg hp] at h
      have h2 : (ragf2Loop pass true (niter + 1) m
          (if true && cprev then false else cprev)).2 = true := h
      have h3 : (ragf2Loop pass true (niter + 1) m false).2 = true := by
        cases cprev <;> simpa using h2
      rcases ih (niter + 1) false h3 with ⟨hfalse, _⟩ | ⟨k, hk, hk1, hk2⟩
      · exact absurd hfalse (by simp)
      · exact Or.inr ⟨k, Nat.le_trans (Nat.le_succ _) hk, hk1, hk2⟩

/-- Claim C2 (amended): in `RAGF2.kernel` with the `extra_cycle` option
enabled, `converged = True` is declared only when the three convergence
deltas pass their tolerances on two consecutive outer iterations; a single
passing iteration never terminates that loop as converged.  (`EAGF2.kernel`
ignores the option, see the counterexample.) -/
theorem ragf2_extra_cycle_two_consecutive (d : ℕ → ℚ × ℚ × ℚ)
    (opts : RAGF2Opts) (hx : opts.extra_cycle = true)
    (hc : (ragf2Kernel d opts).2 = true) :
    ∃ k, 1 ≤ k ∧ kernelPass d opts k = true ∧ kernelPass d opts (k + 1) = true := by
  rw [ragf2Kernel, hx] at hc
  rcases ragf2Loop_consecutive (kernelPass d opts) opts.max_cycle 1 false hc with
    ⟨hfalse, _⟩ | ⟨k, hk, hk1, hk2⟩
  · exact absurd hfalse (by simp)
  · exact ⟨k, hk, hk1, hk2⟩

/-- Closed instance of `ragf2_extra_cycle_two_consecutive` at the
always-passing delta oracle and the default options. -/
theorem ragf2_extra_cycle_two_consecutive_witness :
    ∃ k, 1 ≤ k ∧ kernelPass deltaZero optsW k = true ∧
      kernelPass deltaZero optsW (k + 1) = true :=
  ragf2_extra_cycle_two_consecutive deltaZero optsW (by decide) (by decide)

/-- Claim C2 counterexample: with `extra_cycle = True` (the default),
`EAGF2.kernel` declares convergence after the single passing iteration 0
even though iteration 1 fails the tolerances — the embedded driver never
consults `extra_cycle`, so one passing iteration terminates it as
converged. -/
theorem eagf2_single_pass_counterexample :
    optsW.extra_cycle = true ∧
    kernelPass deltaOnce optsW 0 = true ∧
    kernelPass deltaOnce optsW 1 = false ∧
    eagf2Kernel deltaOnce optsW = (1, true) := by
  refine ⟨rfl, by decide, by decide, ?_⟩
  decide

instance {α : Type} (O : FockOracle α) (tolR tolN : ℚ) (s : α) :
    Decidable (outerPass O tolR tolN s) :=
  inferInstanceAs (Decidable (_ ∧ _))

theorem outerRun_succ {α : Type} (O : FockOracle α) (damping : Bool)
    (tolR tolN : ℚ) (maxInner : ℕ) (s : α) (m : ℕ) :
    outerRun O damping tolR tolN maxInner s (m + 1) =
      if outerPass O tolR tolN (fockCycle O damping tolR maxInner s) then
        (fockCycle O damping tolR maxInner s,
          FEv.minChem :: (innerRun O damping tolR (O.minChem s) maxInner).2, true)
      else
        ((outerRun O damping tolR tolN maxInner (fockCycle O damping tolR maxInner s) m).1,
          (FEv.minChem :: (innerRun O damping tolR (O.minChem s) maxInner).2) ++
            (outerRun O damping tolR tolN maxInner (fockCycle O damping tolR maxInner s) m).2.1,
          (outerRun O damping tolR tolN maxInner (fockCycle O damping tolR maxInner s) m).2.2) :=
  rfl

theorem outerRun_conv_iff {α : Type} (O : FockOracle α) (damping : Bool)
    (tolR tolN : ℚ) (maxInner : ℕ) :
    ∀ (m : ℕ) (s : α),
      (outerRun O damping tolR tolN maxInner s m).2.2 = true ↔
        ∃ k < m, outerPass O tolR tolN
          ((fockCycle O damping tolR maxInner)^[k + 1] s) := by
  intro m
  induction m with
  | zero =>
    intro s
    simp [outerRun]
  | succ n ih =>
    intro s
    rw [outerRun_succ]
    by_cases h : outerPass O tolR tolN (fockCycle O damping tolR maxInner s)
    · rw [if_pos h]
      constructor
      · intro _
        exact ⟨0, Nat.succ_pos n, by simpa using h⟩
      · intro _
        rfl
    · rw [if_neg h]
      constructor
      · intro hc
        rcases (ih _).mp hc with ⟨k, hk, hp⟩
        refine ⟨k + 1, Nat.succ_lt_succ hk, ?_⟩
        rw [Function.iterate_succ_apply]
        exact hp
      · rintro ⟨k, hk, hp⟩
        cases k with
        | zero => exact absurd (by simpa using hp) h
        | succ j =>
          apply (ih _).mpr
          refine ⟨j, Nat.lt_of_succ_lt_succ hk, ?_⟩
          rw [Function.iterate_succ_apply] at hp
          exact hp

theorem outerRun_unconverged {α : Type} (O : FockOracle α) (damping : Bool)
    (tolR tolN : ℚ) (maxInner : ℕ) :
    ∀ (m : ℕ) (s : α),
      (outerRun O damping tolR tolN maxInner s m).2.2 = false →
      (outerRun O damping tolR tolN maxInner s m).1 =
        (fockCycle O damping tolR maxInner)^[m] s := by
  intro m
  induction m with
  | zero =>
    intro s _
    rfl
  | succ n ih =>
    intro s hc
    rw [outerRun_succ] at hc ⊢
    by_cases h : outerPass O tolR tolN (fockCycle O damping tolR maxInner s)
    · rw [if_pos h] at hc
      exact absurd hc (by simp)
    · rw [if_neg h] at hc ⊢
      exact (ih _ hc).trans (Function.iterate_succ_apply _ _ _).symm

/-- Claim C3: with the `fock_loop` option enabled (and a positive inner
cycle budget, without which the source would fault on unbound locals),
`RAGF2.fock_loop` returns `converged = True` exactly when some outer cycle
within the `max_cycle_outer` budget ends with both the density-matrix
change below `conv_tol_rdm1` and the electron-number error below
`conv_tol_nelec`; when no cycle does, it returns, without raising, the
state of the last executed cycle with `converged = False`. -/
theorem fock_loop_converged_iff {α : Type} (O : FockOracle α)
    (opts : RAGF2Opts) (s : α) (hopt : opts.fock_loop = true)
    (_hinner : 0 < opts.max_cycle_inner) :
    ((fockLoopRun O opts true s).2.2 = true ↔
      ∃ k < opts.max_cycle_outer,
        outerPass O opts.conv_tol_rdm1 opts.conv_tol_nelec
          ((fockCycle O (decide (opts.fock_damping ≠ 0)) opts.conv_tol_rdm1
            opts.max_cycle_inner)^[k + 1] s)) ∧
    ((fockLoopRun O opts true s).2.2 = false →
      (fockLoopRun O opts true s).1 =
        (fockCycle O (decide (opts.fock_damping ≠ 0)) opts.conv_tol_rdm1
          opts.max_cycle_inner)^[opts.max_cycle_outer] s) := by
  have hrun : fockLoopRun O opts true s =
      outerRun O (decide (opts.fock_damping ≠ 0)) opts.conv_tol_rdm1
        opts.conv_tol_nelec opts.max_cycle_inner s opts.max_cycle_outer := by
    unfold fockLoopRun
    rw [hopt]
    rfl
  rw [hrun]
  exact ⟨outerRun_conv_iff O _ _ _ _ opts.max_cycle_outer s,
    outerRun_unconverged O _ _ _ _ opts.max_cycle_outer s⟩

/-- Closed instance of `fock_loop_converged_iff` at a concrete oracle over
`ℕ` and the unit-tolerance options. -/
theorem fock_loop_converged_iff_witness :
    ((fockLoopRun natO optsW true 0).2.2 = true ↔
      ∃ k < optsW.max_cycle_outer,
        outerPass natO optsW.conv_tol_rdm1 optsW.conv_tol_nelec
          ((fockCycle natO (decide (optsW.fock_damping ≠ 0)) optsW.conv_tol_rdm1
            optsW.max_cycle_inner)^[k + 1] 0)) ∧
    ((fockLoopRun natO optsW true 0).2.2 = false →
      (fockLoopRun natO optsW true 0).1 =
        (fockCycle natO (decide (optsW.fock_damping ≠ 0)) optsW.conv_tol_rdm1
          optsW.max_cycle_inner)^[optsW.max_cycle_outer] 0) :=
  fock_loop_converged_iff natO optsW 0 rfl (by decide)

/-- Claim C7: with the `fock_loop` option disabled, `RAGF2.fock_loop`
performs exactly one Dyson solve followed by one chemical-potential
bisection and returns — no Fock-matrix rebuild, no damping, no DIIS, no
inner or outer iteration. -/
theorem fock_loop_disabled_single_solve {α : Type} (O : FockOracle α)
    (opts : RAGF2Opts) (s : α) (h : opts.fock_loop = false) :
    fockLoopRun O opts true s =
      (O.binsearchF (O.solveDysonF s), [FEv.dyson, FEv.binsearch], true) ∧
    (fockLoopRun O opts true s).2.1.count FEv.fockBuild = 0 ∧
    (fockLoopRun O opts true s).2.1.count FEv.damp = 0 ∧
    (fockLoopRun O opts true s).2.1.count FEv.diis = 0 ∧
    (fockLoopRun O opts true s).2.1.count FEv.minChem = 0 := by
  have heq : fockLoopRun O opts true s =
      (O.binsearchF (O.solveDysonF s), [FEv.dyson, FEv.binsearch], true) := by
    unfold fockLoopRun
    rw [h]
    rfl
  refine ⟨heq, ?_, ?_, ?_, ?_⟩ <;> rw [heq] <;> rfl

/-- Closed instance of `fock_loop_disabled_single_solve` at a concrete
oracle and `fock_loop=False` options. -/
theorem fock_loop_disabled_single_solve_witness :
    fockLoopRun natO optsNoFock true 5 =
      (natO.binsearchF (natO.solveDysonF 5), [FEv.dyson, FEv.binsearch], true) ∧
    (fockLoopRun natO optsNoFock true 5).2.1.count FEv.fockBuild = 0 ∧
    (fockLoopRun natO optsNoFock true 5).2.1.count FEv.damp = 0 ∧
    (fockLoopRun natO optsNoFock true 5).2.1.count FEv.diis = 0 ∧
    (fockLoopRun natO optsNoFock true 5).2.1.count FEv.minChem = 0 :=
  fock_loop_disabled_single_solve natO optsNoFock 5 rfl

/-- Claim C8: with the `fock_loop` option disabled, the converged flag
returned by `RAGF2.fock_loop` is unconditionally `True`: no tolerance is
checked on that path. -/
theorem fock_loop_disabled_converged_true {α : Type} (O : FockOracle α)
    (opts : RAGF2Opts) (fockGiven : Bool) (s : α)
    (h : opts.fock_loop = false) :
    (fockLoopRun O opts fockGiven s).2.2 = true := by
  unfold fockLoopRun
  rw [h]
  rfl

/-- Closed instance of `fock_loop_disabled_converged_true`. -/
theorem fock_loop_disabled_converged_true_witness :
    (fockLoopRun natO optsNoFock false 0).2.2 = true :=
  fock_loop_disabled_converged_true natO optsNoFock false 0 rfl

/-- Claim C6 (amended): combining an all-below-μ occupied self-energy with
an all-at-or-above-μ virtual self-energy by concatenation (moment
projection disabled) and splitting the result back by pole energy
relative to its chemical potential recovers the original pole lists
exactly, provided every input pole carries at least the pruning weight
`tol` (i.e. the inputs are already pruned); without that proviso the
pruning inside `_combine_se` can drop input poles, see the
counterexample. -/
theorem combine_split_pruned_round_trip (compress : SEPoles → SEPoles)
    (tol : ℚ) (seO seV : SEPoles)
    (hO : ∀ p ∈ seO.poles, p.energy < seO.chempot)
    (hV : ∀ p ∈ seV.poles, seO.chempot ≤ p.energy)
    (hwO : ∀ p ∈ seO.poles, tol ≤ poleWeight p)
    (hwV : ∀ p ∈ seV.poles, tol ≤ poleWeight p) :
    (getOccupied (combineSe compress false tol seO seV)).poles = seO.poles ∧
    (getVirtual (combineSe compress false tol seO seV)).poles = seV.poles ∧
    (combineSe compress false tol seO seV).chempot = seO.chempot := by
  have hcomb : combineSe compress false tol seO seV =
      ⟨seO.poles ++ seV.poles, seO.chempot⟩ := by
    show (⟨(seO.poles ++ seV.poles).filter (fun p => decide (tol ≤ poleWeight p)),
        seO.chempot⟩ : SEPoles) = ⟨seO.poles ++ seV.poles, seO.chempot⟩
    rw [List.filter_append,
      filter_all_true _ _ (fun x hx => decide_eq_true (hwO x hx)),
      filter_all_true _ _ (fun x hx => decide_eq_true (hwV x hx))]
  refine ⟨?_, ?_, by rw [hcomb]⟩
  · rw [hcomb]
    show ((seO.poles ++ seV.poles).filter (fun p => decide (p.energy < seO.chempot)))
      = seO.poles
    rw [List.filter_append,
      filter_all_true _ _ (fun x hx => decide_eq_true (hO x hx)),
      filter_all_false _ _ (fun x hx => decide_eq_false (not_lt.mpr (hV x hx))),
      List.append_nil]
  · rw [hcomb]
    show ((seO.poles ++ seV.poles).filter (fun p => decide (seO.chempot ≤ p.energy)))
      = seV.poles
    rw [List.filter_append,
      filter_all_false _ _ (fun x hx => decide_eq_false (not_le.mpr (hO x hx))),
      filter_all_true _ _ (fun x hx => decide_eq_true (hV x hx)),
      List.nil_append]

/-- Closed instance of `combine_split_pruned_round_trip` on two
well-coupled poles at the default weight tolerance. -/
theorem combine_split_pruned_round_trip_witness :
    (getOccupied (combineSe id false (1 / 1000000000000) seOccW seVirW)).poles
      = seOccW.poles ∧
    (getVirtual (combineSe id false (1 / 1000000000000) seOccW seVirW)).poles
      = seVirW.poles ∧
    (combineSe id false (1 / 1000000000000) seOccW seVirW).chempot
      = seOccW.chempot :=
  combine_split_pruned_round_trip id (1 / 1000000000000) seOccW seVirW
    (by norm_num [seOccW])
    (by norm_num [seOccW, seVirW])
    (by norm_num [seOccW, poleWeight])
    (by norm_num [seVirW, poleWeight])

/-- Claim C6 counterexample: an occupied pole with zero coupling satisfies
the claim's hypotheses (all occupied energies strictly below the combined
chemical potential, all virtual energies at or above it), yet the pruning
step inside `_combine_se` at the default `weight_tol` removes it, so
splitting the combined self-energy does not recover the original occupied
pole set even as a set. -/
theorem combine_split_counterexample :
    (∀ p ∈ seOccCx.poles, p.energy < (combinePoles seOccCx seVirCx).chempot) ∧
    (∀ p ∈ seVirCx.poles, (combinePoles seOccCx seVirCx).chempot ≤ p.energy) ∧
    (⟨-1, [0]⟩ : Pole) ∈ seOccCx.poles ∧
    (⟨-1, [0]⟩ : Pole) ∉
      (getOccupied (combineSe id false (1 / 1000000000000) seOccCx seVirCx)).poles := by
  refine ⟨?_, ?_, ?_, ?_⟩
  · intro p hp
    norm_num [seOccCx, combinePoles] at hp ⊢
    rw [hp]
    norm_num
  · intro p hp
    norm_num [seOccCx, seVirCx, combinePoles] at hp ⊢
    rw [hp]
    norm_num
  · norm_num [seOccCx]
  · norm_num [seOccCx, seVirCx, combineSe, combinePoles, removeUncoupled,
      getOccupied, poleWeight, List.filter_cons]

end VayestaAGF2
